import Mathlib

/-!
Shallow embedding of the genstates state-machine engine
(src/src/genstates/__init__.py) and proofs about its specification.

Modelling conventions:
* Contexts, items, accumulators and action results all share one type `α`,
  mirroring the Python code where the same value flows through rules and
  actions.
* A compiled rule is `α → Except Unit Bool`: `.error ()` models the rule
  predicate raising an exception while being evaluated.
* A state action is `List α → α`, modelling a Python callable invoked with
  a variadic argument tuple (`map_action` passes one argument,
  `reduce_action` passes two).
* Python exceptions raised by the engine are modelled with `Except` over
  explicit error types whose constructors carry exactly the arguments the
  Python exception constructors receive.
* The external rule compiler (`genruler.parse`) is out of scope per the
  spec; schemas therefore carry compiled predicates directly, with the
  missing-rule default `(boolean.tautology)` modelled as the constant-true
  predicate.
-/

namespace Genstates

/-- Runtime errors raised by the engine: `MissingTransitionError(key, "*")`,
`DuplicateTransitionError(origin_key, destination_key)`, the Python
`TypeError` obtained from invoking a `None` action, and the Python
`TypeError` raised by `functools.reduce` on an empty iterable without an
initial value. -/
inductive MachineError where
  | missingTransition (stateKey marker : String)
  | duplicateTransition (stateKey destKey : String)
  | noneNotCallable
  | reduceEmpty
deriving DecidableEq

/-- Construction-time errors raised while building a `Machine`, plus the
Python `AttributeError` that `getattr` raises when an action name does not
resolve in the supplied module. -/
inductive BuildError where
  | missingInitialState
  | invalidInitialState (key : String)
  | duplicateDestination (origin dest : String)
  | missingDestinationState (dest : String)
  | nonCallableAction (stateKey : String)
  | attributeError (attr : String)
deriving DecidableEq

/-- A state: unique key, display name, optional bound action
(`State` dataclass in the source). -/
structure State (α : Type) where
  key : String
  name : String
  action : Option (List α → α)

/-- Execute this state's action with the given arguments
(`State.do_action`). The source body is `return self.action(*arguments)`,
so when `action` is `None` Python raises
`TypeError: 'NoneType' object is not callable`, modelled by
`.error .noneNotCallable`. -/
def State.do_action (s : State α) (arguments : List α) : Except MachineError α :=
  match s.action with
  | none => .error .noneNotCallable
  | some f => .ok (f arguments)

/-- A transition between states (`Transition` dataclass in the source).
The source snapshot has exactly these five fields; it carries no
validation. -/
structure Transition (α : Type) where
  key : String
  name : String
  origin : State α
  destination : State α
  rule : α → Except Unit Bool

/-- Check whether the transition should be taken
(`Transition.check_condition`): evaluate the rule, returning `False` when
the rule raises. -/
def Transition.check_condition (t : Transition α) (context : α) : Bool :=
  match t.rule context with
  | .ok b => b
  | .error _ => false

/-- The compiled machine: initial state, insertion-ordered state mapping,
and the `(origin_key, transition_key) -> Transition` mapping, both modelled
as association lists preserving insertion order. -/
structure Machine (α : Type) where
  initial : State α
  states : List (String × State α)
  transitions : List ((String × String) × Transition α)

/-- All transitions available from a state (`Machine.get_transitions`):
the entries of `transitions` whose origin key equals the state's key, in
insertion order. -/
def Machine.get_transitions (m : Machine α) (s : State α) :
    List (String × Transition α) :=
  m.transitions.filterMap fun p =>
    if p.1.1 = s.key then some (p.1.2, p.2) else none

/-- The list comprehension inside `Machine.progress`: destinations of the
transitions whose rule evaluated to `True`, in scan order. -/
def Machine.matched (m : Machine α) (s : State α) (context : α) :
    List (State α) :=
  (m.get_transitions s).filterMap fun p =>
    if p.2.check_condition context then some p.2.destination else none

/-- Move to the next state (`Machine.progress`): collect the destinations
of all matching transitions, then: zero matches raises
`MissingTransitionError(state.key, "*")`, more than one raises
`DuplicateTransitionError(state.key, result[0].key)`, exactly one is
returned. -/
def Machine.progress (m : Machine α) (s : State α) (context : α) :
    Except MachineError (State α) :=
  match m.matched s context with
  | [] => .error (.missingTransition s.key "*")
  | [d] => .ok d
  | d :: _ :: _ => .error (.duplicateTransition s.key d.key)

/-- Drained behaviour of the `Machine.map_action` generator: the list of
results yielded before any failure, paired with the error that interrupted
the traversal (`none` when the whole input was processed). Each step
resolves the next state with `progress`, invokes the resolved state's
action with the item, and advances the current state. -/
def Machine.map_action (m : Machine α) : State α → List α → List α × Option MachineError
  | _, [] => ([], none)
  | s, x :: xs =>
      match m.progress s x with
      | .error e => ([], some e)
      | .ok s' =>
          match s'.do_action [x] with
          | .error e => ([], some e)
          | .ok r =>
              let rest := m.map_action s' xs
              (r :: rest.1, rest.2)

/-- One step of `Machine.reduce_action`'s inner `reduce_function`, iterated
over the remaining items: `current_state = progress(current_state, incoming)`
then `current_state.do_action(current, incoming)` becomes the new
accumulator. -/
def Machine.reduce_go (m : Machine α) : State α → α → List α → Except MachineError α
  | _, acc, [] => .ok acc
  | s, acc, x :: xs => do
      let s' ← m.progress s x
      let acc' ← s'.do_action [acc, x]
      m.reduce_go s' acc' xs

/-- Reduce an iterable through the machine (`Machine.reduce_action`):
with an initial value, `functools.reduce(reduce_function, iterable, initial_value)`;
without one, `functools.reduce(reduce_function, iterable)`, which seeds the
accumulator with the first item (no resolve/invoke step for it) and raises
a `TypeError` on an empty iterable. -/
def Machine.reduce_action (m : Machine α) (s : State α) (iterable : List α)
    (initial_value : Option α) : Except MachineError α :=
  match initial_value with
  | some v => m.reduce_go s v iterable
  | none =>
      match iterable with
      | [] => .error .reduceEmpty
      | x :: xs => m.reduce_go s x xs

/-- A machine differing from `m` only in the rule stored for the
transition entry `k`: every entry whose `(origin_key, transition_key)`
equals `k` gets rule `r` instead. -/
def Machine.replace_rule (m : Machine α) (k : String × String)
    (r : α → Except Unit Bool) : Machine α :=
  { m with
    transitions := m.transitions.map fun p =>
      if p.1 = k then (p.1, { p.2 with rule := r }) else p }

/-- Decidable test that a rule raises on a given context. -/
def ruleRaises (r : α → Except Unit Bool) (context : α) : Bool :=
  match r context with
  | .error _ => true
  | .ok _ => false

/- ## Generic list helper -/

theorem filterMap_ite_eq_map_filter (l : List β) (p : β → Bool) (f : β → γ) :
    (l.filterMap fun x => if p x then some (f x) else none) =
      (l.filter p).map f := by
  induction l with
  | nil => rfl
  | cons a t ih =>
      by_cases h : p a <;>
        simp [List.filterMap_cons, List.filter_cons, h, ih]

/- ## C1: progress trichotomy -/

/-- C1: for every machine, state and context, `progress` evaluates each
outgoing transition's rule in scan (definition) order and: with exactly
one transition whose rule evaluates true it returns that transition's
destination; with none it raises the missing-transition error carrying the
origin key and the wildcard marker `"*"`; with more than one it raises the
duplicate-transition error carrying the origin key and the destination key
of the first match in scan order. -/
theorem c1_progress_cases (m : Machine α) (s : State α) (context : α) :
    m.progress s context =
      match ((m.get_transitions s).filter
          (fun p => p.2.check_condition context)).map
          (fun p => p.2.destination) with
      | [] => .error (.missingTransition s.key "*")
      | [d] => .ok d
      | d :: _ :: _ => .error (.duplicateTransition s.key d.key) := by
  unfold Machine.progress Machine.matched
  rw [filterMap_ite_eq_map_filter]

/-- Helper: a rule that raises on a context makes `check_condition` false. -/
theorem check_condition_eq_false_of_raises (t : Transition α) (context : α)
    (h : ruleRaises t.rule context = true) :
    t.check_condition context = false := by
  unfold Transition.check_condition
  unfold ruleRaises at h
  cases hr : t.rule context with
  | ok b => rw [hr] at h; cases h
  | error e => rfl

theorem filterMap_congr_mem (l : List β) (f g : β → Option γ)
    (h : ∀ x ∈ l, f x = g x) : l.filterMap f = l.filterMap g := by
  induction l with
  | nil => rfl
  | cons a t ih =>
      rw [List.filterMap_cons, List.filterMap_cons,
        h a (List.mem_cons_self a t),
        ih fun x hx => h x (List.mem_cons_of_mem a hx)]

/-- The two staged `filterMap`s of `matched` fused into one pass over the
transitions list. -/
theorem matched_eq_fused (m : Machine α) (s : State α) (context : α) :
    m.matched s context =
      m.transitions.filterMap fun p =>
        if p.1.1 = s.key then
          (if p.2.check_condition context then some p.2.destination else none)
        else none := by
  unfold Machine.matched Machine.get_transitions
  rw [List.filterMap_filterMap]
  apply filterMap_congr_mem
  intro p _
  by_cases h1 : p.1.1 = s.key <;> simp [h1]

theorem replace_rule_matched (m : Machine α) (k : String × String) (s : State α)
    (context : α)
    (h : ∀ p ∈ m.transitions, p.1 = k → ruleRaises p.2.rule context = true) :
    (m.replace_rule k fun _ => .ok false).matched s context = m.matched s context := by
  rw [matched_eq_fused, matched_eq_fused]
  show ((m.transitions.map _).filterMap _) = _
  rw [List.filterMap_map]
  apply filterMap_congr_mem
  intro p hp
  by_cases hk : p.1 = k
  · have horig : p.2.check_condition context = false :=
      check_condition_eq_false_of_raises p.2 context (h p hp hk)
    have hrepl :
        Transition.check_condition { p.2 with rule := fun _ => .ok false } context
          = false := rfl
    simp [Function.comp, hk, horig, hrepl]
  · simp [Function.comp, hk]

/-- C3: replacing a transition rule that raises on the given context by a
rule that returns false yields an identical outcome of `progress` — the
internal exception is normalized to a false match and never aborts
resolution. -/
theorem c3_throwing_rule_equiv (m : Machine α) (k : String × String) (s : State α)
    (context : α)
    (h : ∀ p ∈ m.transitions, p.1 = k → ruleRaises p.2.rule context = true) :
    (m.replace_rule k fun _ => .ok false).progress s context =
      m.progress s context := by
  unfold Machine.progress
  rw [replace_rule_matched m k s context h]

def stW1 : State Nat := { key := "s1", name := "s1", action := none }

def stW2 : State Nat := { key := "s2", name := "s2", action := none }

def mC3 : Machine Nat :=
  { initial := stW1
    states := [("s1", stW1), ("s2", stW2)]
    transitions :=
      [(("s1", "boom"),
        { key := "boom", name := "boom", origin := stW1, destination := stW2
          rule := fun _ => .error () }),
       (("s1", "go"),
        { key := "go", name := "go", origin := stW1, destination := stW2
          rule := fun _ => .ok true })] }

/-- Witness for C3 at a concrete machine whose transition `("s1","boom")`
carries a raising rule. -/
theorem c3_throwing_rule_equiv_witness :
    (∀ p ∈ mC3.transitions, p.1 = ("s1", "boom") → ruleRaises p.2.rule 0 = true) ∧
    (mC3.replace_rule ("s1", "boom") fun _ => .ok false).progress stW1 0 =
      mC3.progress stW1 0 :=
  ⟨by decide, c3_throwing_rule_equiv mC3 ("s1", "boom") stW1 0 (by decide)⟩

/- ## C4: reduce_action semantics -/

/-- C4: with an explicit initial accumulator the fold is seeded with it and
every item, the first included, passes through a resolve-then-invoke step;
without one, the first item becomes the accumulator with no resolve/invoke
step and folding proceeds from the second item onward; without one on an
empty sequence the operation fails. -/
theorem c4_reduce_action_spec (m : Machine α) (s : State α) (v x : α) (xs : List α) :
    m.reduce_action s [] (some v) = .ok v ∧
    m.reduce_action s (x :: xs) (some v) =
      (m.progress s x).bind (fun s' =>
        (s'.do_action [v, x]).bind fun a => m.reduce_action s' xs (some a)) ∧
    m.reduce_action s (x :: xs) none = m.reduce_action s xs (some x) ∧
    m.reduce_action s ([] : List α) none = .error .reduceEmpty :=
  ⟨rfl, rfl, rfl, rfl⟩

/- ## C7: foreach drains map -/

/-- Modelled from the spec: `foreach_action` is absent from the source
snapshot (only the test suite calls it); per spec section 4.4 it "drives
the same resolve-then-invoke sequence purely for side effects, discarding
all action results". Each step resolves the next state with `progress`,
invokes the resolved state's action with the item, discards the result and
advances; the returned value is the error that interrupted the traversal,
if any. -/
def Machine.foreach_action (m : Machine α) : State α → List α → Option MachineError
  | _, [] => none
  | s, x :: xs =>
      match m.progress s x with
      | .error e => some e
      | .ok s' =>
          match s'.do_action [x] with
          | .error e => some e
          | .ok _ => m.foreach_action s' xs

/-- C7: `foreach_action` performs the same resolve-then-invoke step per
item as `map_action`, discarding all action results; its observable
outcome equals fully draining the map sequence. -/
theorem c7_foreach_drains_map (m : Machine α) (s : State α) (xs : List α) :
    m.foreach_action s xs = (m.map_action s xs).2 := by
  induction xs generalizing s with
  | nil => rfl
  | cons x t ih =>
      cases hp : m.progress s x with
      | error e => simp [Machine.foreach_action, Machine.map_action, hp]
      | ok s' =>
          cases ha : s'.do_action [x] with
          | error e => simp [Machine.foreach_action, Machine.map_action, hp, ha]
          | ok r => simp [Machine.foreach_action, Machine.map_action, hp, ha, ih]

/- ## C5: map_action semantics -/

/-- Specification relation for the map traversal: starting from `s`, the
state list `ss` and result list `rs` form a run over the items: each item
resolves the next state via `progress`, that state's action invoked with
the item produces the result, and the traversal advances to that state. -/
def MapTrace (m : Machine α) : State α → List α → List (State α) → List α → Prop
  | _, [], [], [] => True
  | s, x :: xs, s' :: ss, r :: rs =>
      m.progress s x = .ok s' ∧ s'.do_action [x] = .ok r ∧ MapTrace m s' xs ss rs
  | _, _, _, _ => False

theorem map_action_take (m : Machine α) :
    ∀ (xs : List α) (s : State α) (n : ℕ),
      (m.map_action s (xs.take n)).1 = (m.map_action s xs).1.take n
  | [], s, n => by simp [Machine.map_action]
  | x :: t, s, 0 => by simp [Machine.map_action]
  | x :: t, s, n + 1 => by
      rw [List.take_succ_cons]
      cases hp : m.progress s x with
      | error e => simp [Machine.map_action, hp]
      | ok s' =>
          cases ha : s'.do_action [x] with
          | error e => simp [Machine.map_action, hp, ha]
          | ok r => simp [Machine.map_action, hp, ha, map_action_take m t s' n]

/-- C5: when the map traversal drains without error it yields exactly as
many results as input items, in input order, each produced by resolving
the next state with `progress` and invoking that state's action with the
item while advancing the current state; and the first `n` results only
depend on the first `n` items, so consumers may stop early. -/
theorem c5_map_action_spec (m : Machine α) (s : State α) (xs : List α) :
    ((m.map_action s xs).2 = none →
      ∃ ss : List (State α), ss.length = xs.length ∧
        (m.map_action s xs).1.length = xs.length ∧
        MapTrace m s xs ss (m.map_action s xs).1) ∧
    ∀ n : ℕ, (m.map_action s (xs.take n)).1 = (m.map_action s xs).1.take n := by
  constructor
  · induction xs generalizing s with
    | nil => exact fun _ => ⟨[], rfl, rfl, trivial⟩
    | cons x t ih =>
        intro h
        cases hp : m.progress s x with
        | error e => simp [Machine.map_action, hp] at h
        | ok s' =>
            cases ha : s'.do_action [x] with
            | error e => simp [Machine.map_action, hp, ha] at h
            | ok r =>
                have h2 : (m.map_action s' t).2 = none := by
                  simpa [Machine.map_action, hp, ha] using h
                obtain ⟨ss, hl1, hl2, htr⟩ := ih s' h2
                have hfst : (m.map_action s (x :: t)).1 = r :: (m.map_action s' t).1 := by
                  simp [Machine.map_action, hp, ha]
                refine ⟨s' :: ss, by simp [hl1], ?_, ?_⟩
                · rw [hfst]; simp [hl2]
                · rw [hfst]; exact ⟨hp, ha, htr⟩
  · exact map_action_take m xs s

def stA : State Nat := { key := "start", name := "start", action := some fun _ => 7 }

def stB : State Nat :=
  { key := "dbl", name := "dbl", action := some fun args => 2 * args.headD 0 }

def stC : State Nat :=
  { key := "tri", name := "tri", action := some fun args => 3 * args.headD 0 }

def mC5 : Machine Nat :=
  { initial := stA
    states := [("start", stA), ("dbl", stB), ("tri", stC)]
    transitions :=
      [(("start", "a"),
        { key := "a", name := "a", origin := stA, destination := stB
          rule := fun _ => .ok true }),
       (("dbl", "b"),
        { key := "b", name := "b", origin := stB, destination := stC
          rule := fun _ => .ok true }),
       (("tri", "c"),
        { key := "c", name := "c", origin := stC, destination := stC
          rule := fun _ => .ok true })] }

/-- Witness for C5 on a concrete three-state machine and a three-item
input. -/
theorem c5_map_action_spec_witness :
    (mC5.map_action stA [4, 8, 12]).2 = none ∧
    ∃ ss : List (State Nat), ss.length = ([4, 8, 12] : List Nat).length ∧
      (mC5.map_action stA [4, 8, 12]).1.length = ([4, 8, 12] : List Nat).length ∧
      MapTrace mC5 stA [4, 8, 12] ss ((mC5.map_action stA [4, 8, 12]).1) :=
  ⟨rfl, (c5_map_action_spec mC5 stA [4, 8, 12]).1 rfl⟩

/- ## Schema and graph builder (`Machine.__init__` / `Machine._populate`) -/

/-- A validation block as it may appear in a raw schema transition
definition (rule plus message). The source snapshot's `_populate` never
reads it. -/
structure Validation (α : Type) where
  rule : α → Except Unit Bool
  message : String

/-- A raw transition definition inside the schema. The external rule
compiler is abstracted away: `rule` carries the compiled predicate, `none`
standing for an absent rule, which `_populate` defaults to the always-true
`(boolean.tautology)`. -/
structure TransitionDef (α : Type) where
  name : Option String
  destination : String
  rule : Option (α → Except Unit Bool)
  validation : Option (Validation α)

/-- A raw state definition inside the schema: optional display name,
optional action name, and the ordered transition definitions. -/
structure StateDef (α : Type) where
  name : Option String
  action : Option String
  transitions : List (String × TransitionDef α)

/-- The configuration schema: the `machine.initial_state` key (`none`
models its absence) and the ordered state definitions. -/
structure Schema (α : Type) where
  initial_state : Option String
  states : List (String × StateDef α)

/-- A member of the action namespace: either an invocable callable or a
non-callable attribute. -/
inductive Member (α : Type) where
  | callable (f : List α → α)
  | notCallable

/-- The action namespace (`module` argument): name-based member lookup,
`none` modelling a missing attribute, for which Python `getattr` raises
`AttributeError`. -/
abbrev Module (α : Type) := String → Option (Member α)

/-- The intermediate transition record built in pass 1 of `_populate`:
the destination is still the raw key string. -/
structure RawTransition (α : Type) where
  key : String
  name : String
  origin : State α
  destination : String
  rule : α → Except Unit Bool

/-- Action resolution at the top of `_populate`'s per-state loop:
`action = None; if module and definition.get("action"): action =
getattr(module, definition["action"]); if not callable(action): raise
NonCallableActionError(state_key)`. An empty action name is falsy in
Python and is skipped like an absent one. -/
def resolve_action (module : Option (Module α)) (stateKey : String)
    (actionName : Option String) : Except BuildError (Option (List α → α)) :=
  match module, actionName with
  | some m, some aname =>
      if aname = "" then .ok none
      else
        match m aname with
        | none => .error (.attributeError aname)
        | some (.callable f) => .ok (some f)
        | some .notCallable => .error (.nonCallableAction stateKey)
  | _, _ => .ok none

/-- The transition loop of `_populate`'s pass 1 for one origin state:
destinations already seen are tracked, a repeat raises
`DuplicateDestinationError(state_key, destination)`, and each definition
becomes a `RawTransition` keyed by `(state_key, transition_key)` with the
missing-rule default compiled from `(boolean.tautology)`. The `validation`
field of the definition is not read. -/
def build_raw (origin : State α) (stateKey : String) :
    List String → List (String × TransitionDef α) →
    Except BuildError (List ((String × String) × RawTransition α))
  | _, [] => .ok []
  | seen, (tk, td) :: rest =>
      if td.destination ∈ seen then
        .error (.duplicateDestination stateKey td.destination)
      else
        match build_raw origin stateKey (td.destination :: seen) rest with
        | .error e => .error e
        | .ok tail =>
            .ok (((stateKey, tk),
              { key := tk
                name := td.name.getD tk
                origin := origin
                destination := td.destination
                rule := td.rule.getD fun _ => .ok true }) :: tail)

/-- Pass 1 of `_populate` over the state definitions in insertion order:
resolve the action, build the `State`, and collect the raw transitions. -/
def pass1 (module : Option (Module α)) :
    List (String × StateDef α) →
    Except BuildError
      (List (String × State α) × List ((String × String) × RawTransition α))
  | [] => .ok ([], [])
  | (sk, sd) :: rest =>
      match resolve_action module sk sd.action with
      | .error e => .error e
      | .ok act =>
          match build_raw { key := sk, name := sd.name.getD sk, action := act }
              sk [] sd.transitions with
          | .error e => .error e
          | .ok raws =>
              match pass1 module rest with
              | .error e => .error e
              | .ok (sts, raws') =>
                  .ok ((sk, { key := sk, name := sd.name.getD sk, action := act })
                    :: sts, raws ++ raws')

/-- Key lookup in the built state mapping (`result_states[...]`). -/
def lookup_state (sts : List (String × State α)) (k : String) : Option (State α) :=
  (sts.find? fun p => p.1 = k).map fun p => p.2

/-- Pass 2 of `_populate`: the dict comprehension rebuilding every raw
transition with its destination key resolved into the built `State`; the
first unresolvable destination raises
`MissingDestinationStateError(missing_key)`. -/
def pass2 (sts : List (String × State α)) :
    List ((String × String) × RawTransition α) →
    Except BuildError (List ((String × String) × Transition α))
  | [] => .ok []
  | (key, raw) :: rest =>
      match lookup_state sts raw.destination with
      | none => .error (.missingDestinationState raw.destination)
      | some dest =>
          match pass2 sts rest with
          | .error e => .error e
          | .ok tail =>
              .ok ((key,
                { key := raw.key
                  name := raw.name
                  origin := raw.origin
                  destination := dest
                  rule := raw.rule }) :: tail)

/-- Machine construction (`Machine.__init__`): `_populate` (both passes)
first, then the `machine.initial_state` key is read (absence raises
`MissingInitialStateError`) and looked up among the built states (failure
raises `InvalidInitialStateError(key)`). -/
def Machine.build (schema : Schema α) (module : Option (Module α)) :
    Except BuildError (Machine α) :=
  match pass1 module schema.states with
  | .error e => .error e
  | .ok (sts, raws) =>
      match pass2 sts raws with
      | .error e => .error e
      | .ok trns =>
          match schema.initial_state with
          | none => .error .missingInitialState
          | some k =>
              match lookup_state sts k with
              | none => .error (.invalidInitialState k)
              | some ini => .ok { initial := ini, states := sts, transitions := trns }

/-- Boolean success test for `Except`. -/
def isOkE : Except ε β → Bool
  | .ok _ => true
  | .error _ => false

/-- The destination keys declared by one state's transitions, in order. -/
def destsOf (sd : StateDef α) : List String :=
  sd.transitions.map fun q => q.2.destination

/-- All destination keys declared anywhere in the schema, in declaration
order. -/
def schemaDests (states : List (String × StateDef α)) : List String :=
  (states.map fun p => destsOf p.2).flatten

/-- The state keys declared by the schema, in declaration order. -/
def stateKeys (states : List (String × StateDef α)) : List String :=
  states.map fun p => p.1

/- ## Builder lemmas -/

theorem exists_ok_of_isOkE {x : Except ε β} (h : isOkE x = true) : ∃ a, x = .ok a := by
  cases x with
  | ok a => exact ⟨a, rfl⟩
  | error e => simp [isOkE] at h

theorem lookup_state_eq_none_iff (sts : List (String × State α)) (k : String) :
    lookup_state sts k = none ↔ k ∉ sts.map fun p => p.1 := by
  unfold lookup_state
  rw [Option.map_eq_none', List.find?_eq_none]
  constructor
  · intro h hk
    rw [List.mem_map] at hk
    obtain ⟨p, hp, hpk⟩ := hk
    exact (h p hp) (decide_eq_true hpk)
  · intro h p hp hd
    exact h (List.mem_map.mpr ⟨p, hp, of_decide_eq_true hd⟩)

theorem build_raw_ok_dests (origin : State α) (sk : String) :
    ∀ (ts : List (String × TransitionDef α)) (seen : List String)
      (l : List ((String × String) × RawTransition α)),
      build_raw origin sk seen ts = .ok l →
      (l.map fun p => p.2.destination) = ts.map fun q => q.2.destination
  | [], seen, l, h => by
      simp only [build_raw, Except.ok.injEq] at h
      rw [← h]
      rfl
  | (tk, td) :: rest, seen, l, h => by
      simp only [build_raw] at h
      by_cases hmem : td.destination ∈ seen
      · rw [if_pos hmem] at h
        exact Except.noConfusion h
      · rw [if_neg hmem] at h
        cases hrec : build_raw origin sk (td.destination :: seen) rest with
        | error e => rw [hrec] at h; exact Except.noConfusion h
        | ok tail =>
            rw [hrec] at h
            injection h with h2
            rw [← h2, List.map_cons, List.map_cons,
              build_raw_ok_dests origin sk rest (td.destination :: seen) tail hrec]

theorem build_raw_ok_nodup (origin : State α) (sk : String) :
    ∀ (ts : List (String × TransitionDef α)) (seen : List String)
      (l : List ((String × String) × RawTransition α)),
      build_raw origin sk seen ts = .ok l →
      (ts.map fun q => q.2.destination).Nodup ∧
        ∀ d ∈ ts.map (fun q => q.2.destination), d ∉ seen
  | [], seen, l, _ => by simp
  | (tk, td) :: rest, seen, l, h => by
      simp only [build_raw] at h
      by_cases hmem : td.destination ∈ seen
      · rw [if_pos hmem] at h
        exact Except.noConfusion h
      · rw [if_neg hmem] at h
        cases hrec : build_raw origin sk (td.destination :: seen) rest with
        | error e => rw [hrec] at h; exact Except.noConfusion h
        | ok tail =>
            obtain ⟨hnd, hout⟩ :=
              build_raw_ok_nodup origin sk rest (td.destination :: seen) tail hrec
            refine ⟨?_, ?_⟩
            · rw [List.map_cons, List.nodup_cons]
              refine ⟨fun hin => ?_, hnd⟩
              exact (hout td.destination hin) (List.mem_cons_self _ _)
            · intro d hd
              rw [List.map_cons, List.mem_cons] at hd
              cases hd with
              | inl h1 => rw [h1]; exact hmem
              | inr h1 =>
                  intro hseen
                  exact (hout d h1) (List.mem_cons_of_mem _ hseen)

theorem build_raw_error_dup (origin : State α) (sk : String) :
    ∀ (ts : List (String × TransitionDef α)) (seen : List String) (e : BuildError),
      build_raw origin sk seen ts = .error e →
      ∃ d, e = .duplicateDestination sk d ∧
        d ∈ ts.map (fun q => q.2.destination) ∧
        (d ∈ seen ∨ 2 ≤ (ts.map fun q => q.2.destination).count d)
  | [], seen, e, h => by simp only [build_raw] at h; exact Except.noConfusion h
  | (tk, td) :: rest, seen, e, h => by
      simp only [build_raw] at h
      by_cases hmem : td.destination ∈ seen
      · rw [if_pos hmem] at h
        injection h with h1
        exact ⟨td.destination, h1.symm, List.mem_cons_self _ _, Or.inl hmem⟩
      · rw [if_neg hmem] at h
        cases hrec : build_raw origin sk (td.destination :: seen) rest with
        | ok tail => rw [hrec] at h; exact Except.noConfusion h
        | error e' =>
            rw [hrec] at h
            injection h with h1
            obtain ⟨d, he, hdmem, hcase⟩ :=
              build_raw_error_dup origin sk rest (td.destination :: seen) e' hrec
            refine ⟨d, h1 ▸ he, List.mem_cons_of_mem _ hdmem, ?_⟩
            cases hcase with
            | inl hin =>
                rw [List.mem_cons] at hin
                cases hin with
                | inl hd0 =>
                    right
                    subst hd0
                    rw [List.map_cons, List.count_cons_self]
                    have hpos :
                        0 < (rest.map fun q => q.2.destination).count td.destination :=
                      List.count_pos_iff.mpr hdmem
                    omega
                | inr hs => exact Or.inl hs
            | inr hcnt =>
                right
                rw [List.map_cons, List.count_cons]
                omega

theorem pass1_ok_parts (module : Option (Module α)) :
    ∀ (states : List (String × StateDef α)) sts raws,
      pass1 module states = .ok (sts, raws) →
      ((sts.map fun p => p.1) = stateKeys states ∧
        (raws.map fun p => p.2.destination) = schemaDests states)
  | [], sts, raws, h => by
      simp only [pass1, Except.ok.injEq, Prod.mk.injEq] at h
      obtain ⟨h1, h2⟩ := h
      rw [← h1, ← h2]
      exact ⟨rfl, rfl⟩
  | (sk, sd) :: rest, sts, raws, h => by
      simp only [pass1] at h
      cases ha : resolve_action module sk sd.action with
      | error e => rw [ha] at h; exact Except.noConfusion h
      | ok act =>
          rw [ha] at h
          dsimp only at h
          cases hb : build_raw { key := sk, name := sd.name.getD sk, action := act }
              sk [] sd.transitions with
          | error e => rw [hb] at h; exact Except.noConfusion h
          | ok raws0 =>
              rw [hb] at h
              dsimp only at h
              cases hc : pass1 module rest with
              | error e => rw [hc] at h; exact Except.noConfusion h
              | ok pr =>
                  obtain ⟨sts', raws'⟩ := pr
                  rw [hc] at h
                  simp only [Except.ok.injEq, Prod.mk.injEq] at h
                  obtain ⟨h1, h2⟩ := h
                  obtain ⟨ih1, ih2⟩ := pass1_ok_parts module rest sts' raws' hc
                  constructor
                  · rw [← h1, List.map_cons, ih1]
                    rfl
                  · rw [← h2, List.map_append, ih2,
                      build_raw_ok_dests _ sk sd.transitions [] raws0 hb]
                    simp [schemaDests, destsOf]

theorem pass2_error_shape (sts : List (String × State α)) :
    ∀ (raws : List ((String × String) × RawTransition α)) (e : BuildError),
      pass2 sts raws = .error e →
      ∃ r ∈ raws, lookup_state sts r.2.destination = none ∧
        e = .missingDestinationState r.2.destination
  | [], e, h => by simp only [pass2] at h; exact Except.noConfusion h
  | (key, raw) :: rest, e, h => by
      simp only [pass2] at h
      cases hl : lookup_state sts raw.destination with
      | none =>
          rw [hl] at h
          injection h with h1
          exact ⟨(key, raw), List.mem_cons_self _ _, hl, h1.symm⟩
      | some dest =>
          rw [hl] at h
          cases hrec : pass2 sts rest with
          | ok tail => rw [hrec] at h; exact Except.noConfusion h
          | error e' =>
              rw [hrec] at h
              injection h with h1
              obtain ⟨r, hr, hnone, he⟩ := pass2_error_shape sts rest e' hrec
              exact ⟨r, List.mem_cons_of_mem _ hr, hnone, h1 ▸ he⟩

theorem pass2_ok_resolved (sts : List (String × State α)) :
    ∀ (raws : List ((String × String) × RawTransition α)) l,
      pass2 sts raws = .ok l →
      ∀ r ∈ raws, lookup_state sts r.2.destination ≠ none
  | [], l, _, r, hr => absurd hr (List.not_mem_nil r)
  | (key, raw) :: rest, l, h, r, hr => by
      simp only [pass2] at h
      cases hl : lookup_state sts raw.destination with
      | none => rw [hl] at h; exact Except.noConfusion h
      | some dest =>
          rw [hl] at h
          cases hrec : pass2 sts rest with
          | error e => rw [hrec] at h; exact Except.noConfusion h
          | ok tail =>
              rw [List.mem_cons] at hr
              cases hr with
              | inl h1 => rw [h1]; rw [hl]; exact fun hc => Option.noConfusion hc
              | inr h1 => exact pass2_ok_resolved sts rest tail hrec r h1

/- ## C9: missing destination state -/

/-- C9 (amended): provided pass 1 of `_populate` succeeds (no
duplicate-destination or action-resolution error preempts pass 2),
construction fails with a missing-destination-state error if and only if
some transition's destination key names no state declared anywhere in the
schema, and any such error names a dangling destination key; in particular
with all destinations declared — later in source order than the origin
included — no missing-destination error is possible. -/
theorem c9_missing_destination_iff (schema : Schema α) (module : Option (Module α))
    (h : isOkE (pass1 module schema.states) = true) :
    ((∃ d, Machine.build schema module = .error (.missingDestinationState d)) ↔
      ∃ d ∈ schemaDests schema.states, d ∉ stateKeys schema.states) ∧
    ∀ d, Machine.build schema module = .error (.missingDestinationState d) →
      d ∈ schemaDests schema.states ∧ d ∉ stateKeys schema.states := by
  obtain ⟨pr, hp⟩ := exists_ok_of_isOkE h
  obtain ⟨sts, raws⟩ := pr
  obtain ⟨hkeys, hdests⟩ := pass1_ok_parts module schema.states sts raws hp
  cases hq : pass2 sts raws with
  | error e =>
      have hbuild : Machine.build schema module = .error e := by
        unfold Machine.build
        rw [hp]
        dsimp only
        rw [hq]
      obtain ⟨r, hr, hnone, he⟩ := pass2_error_shape sts raws e hq
      have hdmem : r.2.destination ∈ schemaDests schema.states := by
        rw [← hdests]
        exact List.mem_map.mpr ⟨r, hr, rfl⟩
      have hdnot : r.2.destination ∉ stateKeys schema.states := by
        rw [← hkeys]
        exact (lookup_state_eq_none_iff sts _).mp hnone
      constructor
      · constructor
        · intro _
          exact ⟨r.2.destination, hdmem, hdnot⟩
        · intro _
          exact ⟨r.2.destination, by rw [hbuild, he]⟩
      · intro d hd
        rw [hbuild, he] at hd
        injection hd with h1
        injection h1 with h2
        exact ⟨h2 ▸ hdmem, h2 ▸ hdnot⟩
  | ok trns =>
      have hng : ∀ d, Machine.build schema module ≠ .error (.missingDestinationState d) := by
        intro d
        unfold Machine.build
        rw [hp]
        dsimp only
        rw [hq]
        dsimp only
        cases hi : schema.initial_state with
        | none =>
            dsimp only
            intro hcon
            injection hcon with h1
            exact BuildError.noConfusion h1
        | some k =>
            dsimp only
            cases hl : lookup_state sts k with
            | none =>
                dsimp only
                intro hcon
                injection hcon with h1
                exact BuildError.noConfusion h1
            | some ini =>
                dsimp only
                intro hcon
                exact Except.noConfusion hcon
      constructor
      · constructor
        · rintro ⟨d, hd⟩
          exact absurd hd (hng d)
        · rintro ⟨d, hdmem, hdnot⟩
          exfalso
          have hdm : d ∈ raws.map fun p => p.2.destination := by
            rw [hdests]
            exact hdmem
          obtain ⟨r, hr, hrd⟩ := List.mem_map.mp hdm
          apply pass2_ok_resolved sts raws trns hq r hr
          rw [lookup_state_eq_none_iff, hkeys, hrd]
          exact hdnot
      · intro d hd
        exact absurd hd (hng d)

def c9wschema : Schema Nat :=
  { initial_state := some "s1"
    states := [("s1",
      { name := none, action := none
        transitions := [("t1",
          { name := none, destination := "ghost", rule := none, validation := none })] })] }

/-- Witness for C9 (amended) at a concrete schema with a dangling
destination. -/
theorem c9_missing_destination_iff_witness :
    isOkE (pass1 (none : Option (Module Nat)) c9wschema.states) = true ∧
    ∃ d, Machine.build c9wschema none = .error (.missingDestinationState d) :=
  ⟨by decide, (c9_missing_destination_iff c9wschema none (by decide)).1.mpr (by decide)⟩

def c9xschema : Schema Nat :=
  { initial_state := some "state1"
    states := [("state1",
      { name := none, action := none
        transitions :=
          [("t1", { name := none, destination := "ghost", rule := none, validation := none }),
           ("t2", { name := none, destination := "ghost", rule := none, validation := none })] })] }

/-- Counterexample to C9 as stated: in this schema the destination
`"ghost"` names no state, yet construction fails with the pass-1
duplicate-destination error, not with a missing-destination-state error,
so the claimed equivalence is false. -/
theorem c9_claim_counterexample :
    (∃ d ∈ schemaDests c9xschema.states, d ∉ stateKeys c9xschema.states) ∧
    Machine.build c9xschema none = .error (.duplicateDestination "state1" "ghost") ∧
    ∀ d, Machine.build c9xschema none ≠ .error (.missingDestinationState d) := by
  have hb : Machine.build c9xschema none =
      .error (.duplicateDestination "state1" "ghost") := rfl
  refine ⟨by decide, hb, ?_⟩
  intro d hd
  rw [hb] at hd
  injection hd with h1
  exact BuildError.noConfusion h1

/- ## C10: duplicate destination -/

theorem pass1_dup_error (module : Option (Module α)) :
    ∀ states : List (String × StateDef α),
      (∀ p ∈ states, isOkE (resolve_action module p.1 p.2.action) = true) →
      (∃ p ∈ states, ¬ (destsOf p.2).Nodup) →
      ∃ o d, pass1 module states = .error (.duplicateDestination o d) ∧
        ∃ sd, (o, sd) ∈ states ∧ 2 ≤ (destsOf sd).count d
  | [], _, hdup => absurd hdup (by simp)
  | (sk, sd) :: rest, hact, hdup => by
      obtain ⟨act, ha⟩ := exists_ok_of_isOkE (hact (sk, sd) (List.mem_cons_self _ _))
      by_cases hnd : (destsOf sd).Nodup
      · have hdup' : ∃ p ∈ rest, ¬ (destsOf p.2).Nodup := by
          obtain ⟨p, hp, hnp⟩ := hdup
          rw [List.mem_cons] at hp
          cases hp with
          | inl h1 => rw [h1] at hnp; exact absurd hnd hnp
          | inr h1 => exact ⟨p, h1, hnp⟩
        cases hb : build_raw { key := sk, name := sd.name.getD sk, action := act }
            sk [] sd.transitions with
        | error e =>
            obtain ⟨d, he, hdm, hcase⟩ := build_raw_error_dup _ sk sd.transitions [] e hb
            exfalso
            cases hcase with
            | inl hin => exact absurd hin (List.not_mem_nil d)
            | inr hcnt =>
                have hle := List.nodup_iff_count_le_one.mp hnd d
                have heq : (destsOf sd).count d =
                    (sd.transitions.map fun q => q.2.destination).count d := rfl
                omega
        | ok raws0 =>
            obtain ⟨o, d, hrec, sd', hmem, hcnt⟩ := pass1_dup_error module rest
              (fun p hp => hact p (List.mem_cons_of_mem _ hp)) hdup'
            refine ⟨o, d, ?_, sd', List.mem_cons_of_mem _ hmem, hcnt⟩
            simp only [pass1]
            rw [ha]
            dsimp only
            rw [hb]
            dsimp only
            rw [hrec]
      · cases hb : build_raw { key := sk, name := sd.name.getD sk, action := act }
            sk [] sd.transitions with
        | ok raws0 =>
            exact absurd (build_raw_ok_nodup _ sk sd.transitions [] raws0 hb).1 hnd
        | error e =>
            obtain ⟨d, he, hdm, hcase⟩ := build_raw_error_dup _ sk sd.transitions [] e hb
            have hcnt : 2 ≤ (destsOf sd).count d := by
              cases hcase with
              | inl hin => exact absurd hin (List.not_mem_nil d)
              | inr h2 => exact h2
            refine ⟨sk, d, ?_, sd, List.mem_cons_self _ _, hcnt⟩
            simp only [pass1]
            rw [ha]
            dsimp only
            rw [hb]
            dsimp only
            rw [he]

/-- C10 (amended): for every schema in which two transitions from the same
origin state declare the same destination key, provided every state's
action resolution succeeds (otherwise a non-callable-action or
attribute-lookup failure in pass 1 preempts the check), construction fails
with a duplicate-destination error whose origin and destination identify a
genuinely duplicated pair of that origin's transitions, and no machine is
returned; this is a construction-time error raised before the runtime
duplicate-transition ambiguity could ever be reached. -/
theorem c10_duplicate_destination (schema : Schema α) (module : Option (Module α))
    (hact : ∀ p ∈ schema.states, isOkE (resolve_action module p.1 p.2.action) = true)
    (hdup : ∃ p ∈ schema.states, ¬ (destsOf p.2).Nodup) :
    ∃ o d, Machine.build schema module = .error (.duplicateDestination o d) ∧
      ∃ sd, (o, sd) ∈ schema.states ∧ 2 ≤ (destsOf sd).count d := by
  obtain ⟨o, d, hp1, sd, hmem, hcnt⟩ := pass1_dup_error module schema.states hact hdup
  refine ⟨o, d, ?_, sd, hmem, hcnt⟩
  unfold Machine.build
  rw [hp1]

def c10wschema : Schema Nat :=
  { initial_state := some "s1"
    states :=
      [("s1",
        { name := none, action := none
          transitions :=
            [("t1", { name := none, destination := "s2", rule := none, validation := none }),
             ("t2", { name := none, destination := "s2", rule := none, validation := none })] }),
       ("s2", { name := none, action := none, transitions := [] })] }

/-- Witness for C10 (amended) at a concrete schema with two transitions
from `s1` to `s2`. -/
theorem c10_duplicate_destination_witness :
    (∀ p ∈ c10wschema.states,
      isOkE (resolve_action (none : Option (Module Nat)) p.1 p.2.action) = true) ∧
    (∃ p ∈ c10wschema.states, ¬ (destsOf p.2).Nodup) ∧
    ∃ o d, Machine.build c10wschema none = .error (.duplicateDestination o d) ∧
      ∃ sd, (o, sd) ∈ c10wschema.states ∧ 2 ≤ (destsOf sd).count d :=
  ⟨by decide, by decide, c10_duplicate_destination c10wschema none (by decide) (by decide)⟩

def c10xschema : Schema Nat :=
  { initial_state := some "s1"
    states := [("s1",
      { name := none, action := some "bad"
        transitions :=
          [("t1", { name := none, destination := "s1", rule := none, validation := none }),
           ("t2", { name := none, destination := "s1", rule := none, validation := none })] })] }

def c10xmodule : Module Nat := fun n => if n = "bad" then some .notCallable else none

/-- Counterexample to C10 as stated: this schema has two transitions from
`s1` both to `s1`, yet construction fails with the non-callable-action
error (action resolution runs before the transition loop of the same
state), not with a duplicate-destination error. -/
theorem c10_claim_counterexample :
    (∃ p ∈ c10xschema.states, ¬ (destsOf p.2).Nodup) ∧
    Machine.build c10xschema (some c10xmodule) = .error (.nonCallableAction "s1") ∧
    ∀ o d, Machine.build c10xschema (some c10xmodule) ≠
      .error (.duplicateDestination o d) := by
  have hb : Machine.build c10xschema (some c10xmodule) =
      .error (.nonCallableAction "s1") := rfl
  refine ⟨by decide, hb, ?_⟩
  intro o d hd
  rw [hb] at hd
  injection hd with h1
  exact BuildError.noConfusion h1

/- ## C8: action resolution -/

/-- C8 (amended): when a namespace is supplied and a state definition
names a non-empty action, construction resolves the name against the
namespace: a name resolving to a non-invocable member fails with the
non-callable-action error identifying the state; a name that does not
resolve at all fails with the attribute-lookup error naming the attribute
(not with a non-callable-action error); a name resolving to a callable
binds exactly that callable. With no namespace, or no (or empty) action
name, no resolution happens and no action is bound. -/
theorem c8_action_resolution (m : Module α) (sk aname : String) (a : Option String) :
    (resolve_action (some m) sk (some aname) =
      if aname = "" then .ok none
      else
        match m aname with
        | none => .error (.attributeError aname)
        | some (.callable f) => .ok (some f)
        | some .notCallable => .error (.nonCallableAction sk)) ∧
    resolve_action (none : Option (Module α)) sk a = .ok none ∧
    resolve_action (some m) sk none = .ok none := by
  refine ⟨rfl, ?_, rfl⟩
  cases a <;> rfl

def c8xschema : Schema Nat :=
  { initial_state := some "state1"
    states := [("state1", { name := none, action := some "nope", transitions := [] })] }

def c8xmodule : Module Nat := fun _ => none

/-- Counterexample to C8 as stated: the action name `"nope"` does not
resolve to any member of the supplied namespace, and construction fails
with the attribute-lookup error naming the attribute, not with a
non-callable-action error identifying the state. -/
theorem c8_claim_counterexample :
    Machine.build c8xschema (some c8xmodule) = .error (.attributeError "nope") ∧
    ∀ k, Machine.build c8xschema (some c8xmodule) ≠ .error (.nonCallableAction k) := by
  have hb : Machine.build c8xschema (some c8xmodule) =
      .error (.attributeError "nope") := rfl
  refine ⟨hb, ?_⟩
  intro k hd
  rw [hb] at hd
  injection hd with h1
  exact BuildError.noConfusion h1

/- ## C2: validation is dropped by this source snapshot -/

def c2schema : Schema Int :=
  { initial_state := some "state1"
    states :=
      [("state1",
        { name := some "State One", action := none
          transitions :=
            [("to_state2",
              { name := some "Go to State Two"
                destination := "state2"
                rule := some fun _ => .ok true
                validation := some
                  { rule := fun v => .ok (decide (0 < v))
                    message := "Value must be positive" } })] }),
       ("state2", { name := some "State Two", action := none, transitions := [] })] }

def c2outcome : Except BuildError (Except MachineError String) :=
  (Machine.build c2schema none).map fun m =>
    (m.progress m.initial (-1)).map fun s => s.key

/-- C2 exhibit: the machine built from the spec's validation example
(rule always true, validation requiring a positive context) progresses
normally to `state2` on the context `-1`: the source snapshot's
`Transition` has no validation field, `_populate` never reads the
schema's validation block, and `check_condition` never raises a
validation failure, contradicting the claim and the repository's own
tests. -/
theorem c2_validation_ignored : c2outcome = .ok (.ok "state2") := rfl

/- ## C6: invoking a state with no action -/

/-- C6 exhibit: `do_action` on a state with no bound action evaluates
`self.action(*arguments)` with `action` equal to `None`, which raises the
Python `TypeError` for calling a non-callable — not the missing-action
error that the claim and the repository's own tests require. -/
theorem c6_do_action_none_typeerror :
    (State.mk "test" "Test State" (none : Option (List Nat → Nat))).do_action [] =
      .error .noneNotCallable := rfl

end Genstates
